import Mathlib

/-!
Verification of the errantdns.io authoritative DNS server.

The Go sources are embedded shallowly:

* Go `string` values (domain names, record targets, cache keys) are ASCII
  byte sequences, modelled as `List Nat`; `strings.ToLower`,
  `strings.TrimSuffix name "."`, `strings.Split` and `strings.Join` become
  the corresponding list functions restricted to bytes.
* The PostgreSQL table `dns_records` is a `List DNSRecord` holding the rows
  in table order.  A SQL `ORDER BY` is modelled as a stable sort on exactly
  the SQL sort keys, so the relative order of rows the SQL leaves
  unconstrained is the table order.  SQL / network failures are outside the
  model: the embedded query functions are total and an error-free run of the
  Go function computes the same value.
* `time.Time` instants are `Nat` seconds; `time.Now()` becomes an explicit
  `now` parameter.
* The 64-bit MD5-derived query value of `roundRobinIndex`
  (`binary.BigEndian.Uint64(md5(name ++ type))`) is a pure function of the
  query; it is abstracted as a parameter `hq : Nat` (reduced mod 2^64 where
  the Go code wraps).
-/

namespace ErrantDNS

/-- ASCII byte strings: the model of Go `string` values. -/
abbrev ByteStr := List Nat

/-- Convenience: the bytes of a Lean string literal (used only to write down
concrete ASCII inputs). -/
def bs (s : String) : ByteStr := s.data.map Char.toNat

/-- Go `strings.ToLower`, restricted to ASCII bytes: bytes 65–90 (`A`–`Z`)
are shifted to 97–122 (`a`–`z`), all other bytes are unchanged. -/
def toLowerByte (b : Nat) : Nat := if 65 ≤ b ∧ b ≤ 90 then b + 32 else b

/-- Go `strings.ToLower` on a whole string. -/
def toLowerStr (s : ByteStr) : ByteStr := s.map toLowerByte

/-- Go `strings.TrimSuffix(name, ".")`: drops one trailing dot (byte 46) if
present, otherwise returns the string unchanged. -/
def trimDotSuffix (s : ByteStr) : ByteStr :=
  if s.getLast? = some 46 then s.dropLast else s

/-- Go `models.NormalizeDomainName`:
`strings.ToLower(strings.TrimSuffix(name, "."))`. -/
def NormalizeDomainName (s : ByteStr) : ByteStr := toLowerStr (trimDotSuffix s)

/-- Go `models.RecordType`: the supported DNS record types. -/
inductive RecordType where
  | A | AAAA | CNAME | TXT | MX | NS | SOA | PTR | SRV | CAA | TLSA
deriving DecidableEq

/-- Go `models.DNSRecord`, restricted to the columns the verified claims touch
(`id`, `name`, `record_type`, `target`, `ttl`, `priority`).  The remaining Go
fields (timestamps, SOA numerics, SRV/ CAA/ TLSA extras, wildcard metadata)
do not occur in the claims. -/
structure DNSRecord where
  id : Int
  name : ByteStr
  recordType : RecordType
  target : ByteStr
  ttl : Nat
  priority : Int
deriving DecidableEq

/-- Go `models.LookupQuery`. -/
structure LookupQuery where
  name : ByteStr
  qtype : RecordType
deriving DecidableEq

/-- Go `models.NewLookupQuery`: normalizes the name (the record-type string is
upper-cased in Go, which the enum model makes the identity). -/
def NewLookupQuery (name : ByteStr) (t : RecordType) : LookupQuery :=
  ⟨NormalizeDomainName name, t⟩

/-- The SQL row filter `LOWER(name) = LOWER($1) AND record_type = $2` shared
by every `dns_records` query. -/
def matchesQuery (q : LookupQuery) (r : DNSRecord) : Bool :=
  toLowerStr r.name == toLowerStr q.name && r.recordType == q.qtype

/-- SQL `MIN(priority)` over a list of priorities; `none` models the NULL
returned when no row matches. -/
def minPrio : List Int → Option Int
  | [] => none
  | x :: xs =>
    match minPrio xs with
    | none => some x
    | some m => some (min x m)

/-- Comparison by record id: the sort key of `ORDER BY id ASC`. -/
def recIdLE (a b : DNSRecord) : Prop := a.id ≤ b.id

/-- Comparison by priority: the sort key of `ORDER BY priority ASC`. -/
def recPrioLE (a b : DNSRecord) : Prop := a.priority ≤ b.priority

instance : DecidableRel recIdLE := fun a b => inferInstanceAs (Decidable (a.id ≤ b.id))

instance : DecidableRel recPrioLE := fun a b => inferInstanceAs (Decidable (a.priority ≤ b.priority))

instance : IsTotal DNSRecord recIdLE := ⟨fun a b => le_total a.id b.id⟩

instance : IsTrans DNSRecord recIdLE := ⟨fun _ _ _ h h' => le_trans h h'⟩

instance : IsTotal DNSRecord recPrioLE := ⟨fun a b => le_total a.priority b.priority⟩

instance : IsTrans DNSRecord recPrioLE := ⟨fun _ _ _ h h' => le_trans h h'⟩

/-- Go `PostgresStorage.LookupRecordGroup`: first query `SELECT MIN(priority)`
over the matching rows, then fetch the rows carrying that priority with
`ORDER BY id ASC`.  (When no row matches, MIN scans NULL into an invalid
`sql.NullInt32` and the second query matches nothing, so the Go function
returns an empty result and no error.) -/
def lookupRecordGroup (table : List DNSRecord) (q : LookupQuery) : List DNSRecord :=
  match minPrio ((table.filter (matchesQuery q)).map (·.priority)) with
  | none => []
  | some m =>
    ((table.filter (matchesQuery q)).filter (fun r => r.priority == m)).insertionSort recIdLE

/-- Go `PostgresStorage.LookupRecords`: `SELECT … ORDER BY priority ASC` — the
SQL names no secondary sort key, so rows of equal priority keep table order
(the stable sort realizes one admissible SQL answer). -/
def lookupRecords (table : List DNSRecord) (q : LookupQuery) : List DNSRecord :=
  (table.filter (matchesQuery q)).insertionSort recPrioLE

/-- The two phases of `PostgresStorage.LookupRecordGroup` made explicit: the
`MIN(priority)` query reads state `s1`, the row fetch reads state `s2`.  The
Go method runs the two queries on a connection pool with no transaction, so
a mutation can commit between them (`s1 ≠ s2`); the single-snapshot run is
`s1 = s2`. -/
def lookupRecordGroupTwoPhase (s1 s2 : List DNSRecord) (q : LookupQuery) : List DNSRecord :=
  match minPrio ((s1.filter (matchesQuery q)).map (·.priority)) with
  | none => []
  | some m =>
    ((s2.filter (matchesQuery q)).filter (fun r => r.priority == m)).insertionSort recIdLE

/-! ### Selectors (`selectFromArray`, `roundRobinIndex`) -/

/-- Go `CachedStorage.roundRobinIndex`: MD5-derived query value `hq` (a 64-bit
quantity) plus `uint64(time.Now().Unix() / 5)`; the `uint64` addition wraps
mod `2^64`; result taken mod `count`.  `count <= 1` short-circuits to 0. -/
def roundRobinIndex (hq nowSec count : Nat) : Nat :=
  if count ≤ 1 then 0 else ((hq % 2 ^ 64 + (nowSec / 5) % 2 ^ 64) % 2 ^ 64) % count

/-- Go `PostgresStorage.roundRobinIndex`: identical shape but with a 30-second
time bucket (`time.Now().Unix() / 30`). -/
def pgRoundRobinIndex (hq nowSec count : Nat) : Nat :=
  if count ≤ 1 then 0 else ((hq % 2 ^ 64 + (nowSec / 30) % 2 ^ 64) % 2 ^ 64) % count

/-- Go `CachedStorage.selectFromArray`, round-robin / default branch (the
`random` branch drives Go's `math/rand` PRNG and is outside this model; the
process default tie-breaker is `round_robin`). -/
def cachedSelectFromArrayRR (records : List DNSRecord) (hq nowSec : Nat) : Option DNSRecord :=
  match records with
  | [] => none
  | [r] => some r
  | _ => records.get? (roundRobinIndex hq nowSec records.length)

/-- Go `RedisCacheStorage.selectFromArray`: returns `records[0]` whenever the
group is non-empty, for every tie-breaker policy. -/
def redisSelectFromArray (records : List DNSRecord) : Option DNSRecord :=
  match records with
  | [] => none
  | r :: _ => some r

/-- Go `PostgresStorage.LookupRecord`, round-robin branch: fetch the minimum
priority group, return `nil` on empty, the sole record on a singleton, and
otherwise tie-break with the 30-second-bucket round robin. -/
def pgLookupRecord (hq nowSec : Nat) (table : List DNSRecord) (q : LookupQuery) :
    Option DNSRecord :=
  match lookupRecordGroup table q with
  | [] => none
  | [r] => some r
  | recs => recs.get? (pgRoundRobinIndex hq nowSec recs.length)

/-! ### L1 in-process cache (`cache.MemoryCache`)

The Go map plus LRU access list is modelled as an association list keyed by
the cache-key string; `stats` counters and the `maxEntries` LRU eviction
loop are not involved in any claim and are omitted (the modelled cache is
below its bound).  `Get` and `Set` are otherwise translated line by line. -/

/-- Go `cache.cacheEntry`. -/
structure CacheEntry where
  records : List DNSRecord
  expiresAt : Nat
  lastAccess : Nat
deriving DecidableEq

/-- Association-list lookup (Go map read). -/
def assocGet {β : Type} (k : ByteStr) : List (ByteStr × β) → Option β
  | [] => none
  | (k', v) :: rest => if k' = k then some v else assocGet k rest

/-- Association-list insert / replace (Go map write). -/
def assocSet {β : Type} (k : ByteStr) (v : β) : List (ByteStr × β) → List (ByteStr × β)
  | [] => [(k, v)]
  | (k', v') :: rest => if k' = k then (k, v) :: rest else (k', v') :: assocSet k v rest

/-- Association-list removal (Go map `delete`: a Go map holds a key at most
once, so deletion leaves no binding for `k` behind). -/
def assocErase {β : Type} (k : ByteStr) : List (ByteStr × β) → List (ByteStr × β)
  | [] => []
  | (k', v') :: rest => if k' = k then assocErase k rest else (k', v') :: assocErase k rest

/-- The L1 cache contents. -/
abbrev MemCache := List (ByteStr × CacheEntry)

/-- Go `MemoryCache.Get` at instant `now`: a missing key is a miss; a present
entry is expired iff `time.Now().After(expiresAt)`, i.e. iff
`expiresAt < now`, in which case it is removed and reported as a miss;
otherwise the records are returned and `lastAccess` is updated. -/
def memGet (now : Nat) (k : ByteStr) (c : MemCache) : Option (List DNSRecord) × MemCache :=
  match assocGet k c with
  | none => (none, c)
  | some e =>
    if e.expiresAt < now then (none, assocErase k c)
    else (some e.records, assocSet k ⟨e.records, e.expiresAt, now⟩ c)

/-- Go `MemoryCache.Set` at instant `now`: writes the entry with
`expiresAt = now + ttl` (both the existing-key and the new-key branch). -/
def memSet (now : Nat) (k : ByteStr) (records : List DNSRecord) (ttl : Nat) (c : MemCache) :
    MemCache :=
  assocSet k ⟨records, now + ttl, now⟩ c

/-- Go `MemoryCache.Delete`. -/
def memDelete (k : ByteStr) (c : MemCache) : MemCache := assocErase k c

/-! ### L2 Redis cache and the two cache facades -/

/-- One Redis value under the facade's key: the JSON-serialized record group
(`SetJSONOn`) together with the TTL installed by `ExpireOn`, in seconds. -/
structure L2Entry where
  records : List DNSRecord
  ttlSeconds : Nat
deriving DecidableEq

/-- The L2 cache contents. -/
abbrev L2Cache := List (ByteStr × L2Entry)

/-- The ASCII rendering of a record type, as produced by `RecordType.String`. -/
def typeBytes : RecordType → ByteStr
  | .A => [65]
  | .AAAA => [65, 65, 65, 65]
  | .CNAME => [67, 78, 65, 77, 69]
  | .TXT => [84, 88, 84]
  | .MX => [77, 88]
  | .NS => [78, 83]
  | .SOA => [83, 79, 65]
  | .PTR => [80, 84, 82]
  | .SRV => [83, 82, 86]
  | .CAA => [67, 65, 65]
  | .TLSA => [84, 76, 83, 65]

/-- Go `LookupQuery.CacheKey`: the fingerprint `"{name}:{type}"` (`:` = 58). -/
def cacheKey (q : LookupQuery) : ByteStr := q.name ++ [58] ++ typeBytes q.qtype

/-- The fixed Redis namespace `"errantdns:"` passed to
`NewRedisCacheStorage` in `cmd/dns-server/main.go`. -/
def redisNamespace : ByteStr := bs (r"errantdns:")

/-- Go `RedisCacheStorage.getCacheKey`: namespace plus fingerprint. -/
def redisKey (q : LookupQuery) : ByteStr := redisNamespace ++ cacheKey q

/-- The state seen by `RedisCacheStorage`: durable store, L1 memory cache,
L2 Redis contents. -/
structure TieredState where
  store : List DNSRecord
  l1 : MemCache
  l2 : L2Cache
deriving DecidableEq

/-- The state seen by `CachedStorage` (memory-only facade). -/
structure CachedState where
  store : List DNSRecord
  cache : MemCache
deriving DecidableEq

/-- Go `RedisCacheStorage.LookupRecord`: L1, then L2 (populating L1 with
`TTL/10` seconds), then `LookupRecordGroup` on the store, populating L1 with
`TTL/10` and L2 with `TTL/2` seconds — all TTLs derived from
`records[0].TTL` by Go integer (floor) division.  An empty store answer is
returned uncached. -/
def redisLookupRecord (now : Nat) (st : TieredState) (q : LookupQuery) :
    Option DNSRecord × TieredState :=
  match (memGet now (redisKey q) st.l1).1 with
  | some (r0 :: rs) =>
    (redisSelectFromArray (r0 :: rs), ⟨st.store, (memGet now (redisKey q) st.l1).2, st.l2⟩)
  | _ =>
    match assocGet (redisKey q) st.l2 with
    | some ⟨r0 :: rs, _⟩ =>
      (redisSelectFromArray (r0 :: rs),
       ⟨st.store,
        memSet now (redisKey q) (r0 :: rs) (r0.ttl / 10) (memGet now (redisKey q) st.l1).2,
        st.l2⟩)
    | _ =>
      match lookupRecordGroup st.store q with
      | [] => (none, ⟨st.store, (memGet now (redisKey q) st.l1).2, st.l2⟩)
      | r0 :: rs =>
        (redisSelectFromArray (r0 :: rs),
         ⟨st.store,
          memSet now (redisKey q) (r0 :: rs) (r0.ttl / 10) (memGet now (redisKey q) st.l1).2,
          assocSet (redisKey q) ⟨r0 :: rs, r0.ttl / 2⟩ st.l2⟩)

/-- Go `CachedStorage.LookupRecord`: L1, then `LookupRecordGroup` on the store;
a populating read caches the group for the full `records[0].TTL` seconds. -/
def cachedLookupRecord (hq now : Nat) (st : CachedState) (q : LookupQuery) :
    Option DNSRecord × CachedState :=
  match (memGet now (cacheKey q) st.cache).1 with
  | some (r0 :: rs) =>
    (cachedSelectFromArrayRR (r0 :: rs) hq now, ⟨st.store, (memGet now (cacheKey q) st.cache).2⟩)
  | _ =>
    match lookupRecordGroup st.store q with
    | [] => (none, ⟨st.store, (memGet now (cacheKey q) st.cache).2⟩)
    | r0 :: rs =>
      (cachedSelectFromArrayRR (r0 :: rs) hq now,
       ⟨st.store, memSet now (cacheKey q) (r0 :: rs) r0.ttl (memGet now (cacheKey q) st.cache).2⟩)

/-! ### Mutations and cache invalidation -/

/-- Go `PostgresStorage.DeleteRecord`: `DELETE FROM dns_records WHERE id = $1`;
an error (`none`) when no row is affected. -/
def pgDeleteRecordById (table : List DNSRecord) (id : Int) : Option (List DNSRecord) :=
  if table.any (fun r => r.id == id) then some (table.filter (fun r => !(r.id == id)))
  else none

/-- Go `PostgresStorage.DeleteRecords`: deletes every row whose lowered name
matches the lowered normalized name (and the type, when one is given);
errors (`none`) when no row is affected. -/
def pgDeleteRecords (table : List DNSRecord) (name : ByteStr) (rtype : Option RecordType) :
    Option (List DNSRecord) :=
  let nn := NormalizeDomainName name
  let hit : DNSRecord → Bool := fun r =>
    toLowerStr r.name == toLowerStr nn &&
      match rtype with
      | none => true
      | some t => r.recordType == t
  if table.any hit then some (table.filter (fun r => !(hit r))) else none

/-- Go `RedisCacheStorage.invalidateRecord` / `invalidateNameType`: delete the
`(name, type)` key from L1 and from Redis. -/
def redisInvalidateNameType (name : ByteStr) (t : RecordType) (st : TieredState) : TieredState :=
  ⟨st.store, memDelete (redisKey (NewLookupQuery name t)) st.l1,
   assocErase (redisKey (NewLookupQuery name t)) st.l2⟩

/-- The `commonTypes` list of `RedisCacheStorage.invalidateDomain` — note it
stops at CAA and does not include TLSA. -/
def redisCommonTypes : List RecordType :=
  [.A, .AAAA, .CNAME, .TXT, .MX, .NS, .SOA, .PTR, .SRV, .CAA]

/-- Go `RedisCacheStorage.invalidateDomain`. -/
def redisInvalidateDomain (name : ByteStr) (st : TieredState) : TieredState :=
  redisCommonTypes.foldl (fun s t => redisInvalidateNameType name t s) st

/-- Go `CachedStorage.invalidateNameType`. -/
def cachedInvalidateNameType (name : ByteStr) (t : RecordType) (st : CachedState) : CachedState :=
  ⟨st.store, memDelete (cacheKey (NewLookupQuery name t)) st.cache⟩

/-- The `commonTypes` list of `CachedStorage.invalidateDomain` (six types). -/
def cachedCommonTypes : List RecordType := [.A, .AAAA, .CNAME, .TXT, .MX, .NS]

/-- Go `CachedStorage.invalidateDomain`. -/
def cachedInvalidateDomain (name : ByteStr) (st : CachedState) : CachedState :=
  cachedCommonTypes.foldl (fun s t => cachedInvalidateNameType name t s) st

/-- Go `RedisCacheStorage.CreateRecord`: the store mutation runs first (here an
arbitrary inner store operation `inner`, `none` modelling its error return);
only on success are the L1 and L2 entries for the record's `(name, type)`
key deleted.  On failure the caches are untouched (`none` is returned and
the caller's state stands). -/
def redisCreateRecord (inner : List DNSRecord → DNSRecord → Option (List DNSRecord))
    (st : TieredState) (r : DNSRecord) : Option TieredState :=
  match inner st.store r with
  | none => none
  | some s' =>
    some ⟨s', memDelete (redisKey (NewLookupQuery r.name r.recordType)) st.l1,
      assocErase (redisKey (NewLookupQuery r.name r.recordType)) st.l2⟩

/-- Go `RedisCacheStorage.UpdateRecord`: same shape as `CreateRecord`. -/
def redisUpdateRecord (inner : List DNSRecord → DNSRecord → Option (List DNSRecord))
    (st : TieredState) (r : DNSRecord) : Option TieredState :=
  match inner st.store r with
  | none => none
  | some s' =>
    some ⟨s', memDelete (redisKey (NewLookupQuery r.name r.recordType)) st.l1,
      assocErase (redisKey (NewLookupQuery r.name r.recordType)) st.l2⟩

/-- Go `RedisCacheStorage.DeleteRecord`: delegates to the store's delete-by-id
and returns — no cache access of any kind. -/
def redisDeleteRecord (st : TieredState) (id : Int) : Option TieredState :=
  match pgDeleteRecordById st.store id with
  | none => none
  | some s' => some ⟨s', st.l1, st.l2⟩

/-- Go `RedisCacheStorage.DeleteRecords`: store deletion first; on success an
empty type invalidates the `redisCommonTypes` fan-out, a concrete type just
its own key. -/
def redisDeleteRecords (st : TieredState) (name : ByteStr) (rtype : Option RecordType) :
    Option TieredState :=
  match pgDeleteRecords st.store name rtype with
  | none => none
  | some s' =>
    match rtype with
    | none => some (redisInvalidateDomain name ⟨s', st.l1, st.l2⟩)
    | some t => some (redisInvalidateNameType name t ⟨s', st.l1, st.l2⟩)

/-- Go `CachedStorage.DeleteRecords` (memory-only facade), same structure with
the six-type fan-out. -/
def cachedDeleteRecords (st : CachedState) (name : ByteStr) (rtype : Option RecordType) :
    Option CachedState :=
  match pgDeleteRecords st.store name rtype with
  | none => none
  | some s' =>
    match rtype with
    | none => some (cachedInvalidateDomain name ⟨s', st.cache⟩)
    | some t => some (cachedInvalidateNameType name t ⟨s', st.cache⟩)

/-! ### Resolver (`resolver.Resolver`) -/

/-- Go `Resolver.generateDomainHierarchy`: trim the trailing dot, lower-case,
split on `.`, and emit `Join(parts[i:], ".")` for each `i` — the suffix
chain from most-specific to least-specific. -/
def generateDomainHierarchy (domain : ByteStr) : List ByteStr :=
  let d := toLowerStr (trimDotSuffix domain)
  let parts := d.splitOn 46
  (List.range parts.length).map fun i => List.intercalate [46] (parts.drop i)

/-- The loop body of `Resolver.resolveSOA`: try each hierarchy entry with a
SOA `storage.LookupRecord` (abstracted as `lookup`), return the first hit
with its name rewritten to the original query name. -/
def resolveSOAWalk (lookup : ByteStr → Option DNSRecord) (queryName : ByteStr) :
    List ByteStr → Option DNSRecord
  | [] => none
  | d :: rest =>
    match lookup d with
    | some r => some { r with name := queryName }
    | none => resolveSOAWalk lookup queryName rest

/-- Go `Resolver.resolveSOA`. -/
def resolveSOA (lookup : ByteStr → Option DNSRecord) (queryName : ByteStr) : Option DNSRecord :=
  resolveSOAWalk lookup queryName (generateDomainHierarchy queryName)

/-! ### Concrete inputs used by witnesses and counterexamples

The records mirror the literal scenarios of the specification
(`priority-test.internal`, `test.internal` MX pair, the SOA at
`test.internal`). -/

/-- Spec scenario 1, record `10.0.2.20 pri=10` (id 1). -/
def demoRec20 : DNSRecord :=
  ⟨1, bs (r"priority-test.internal"), .A, bs (r"10.0.2.20"), 300, 10⟩

/-- Spec scenario 1, record `10.0.2.21 pri=10` (id 2). -/
def demoRec21 : DNSRecord :=
  ⟨2, bs (r"priority-test.internal"), .A, bs (r"10.0.2.21"), 300, 10⟩

/-- Spec scenario 1, record `10.0.2.30 pri=20` (id 3). -/
def demoRec30 : DNSRecord :=
  ⟨3, bs (r"priority-test.internal"), .A, bs (r"10.0.2.30"), 300, 20⟩

/-- The store of spec scenario 1. -/
def demoTable : List DNSRecord := [demoRec20, demoRec21, demoRec30]

/-- The query of spec scenario 1. -/
def demoQuery : LookupQuery := ⟨bs (r"priority-test.internal"), .A⟩

/-- Spec scenario 2: `mail.test.internal pri=10`, here with the larger id. -/
def c4recMail : DNSRecord :=
  ⟨9, bs (r"test.internal"), .MX, bs (r"mail.test.internal"), 300, 10⟩

/-- A second MX row of equal priority but smaller id, stored after
`c4recMail` in table order. -/
def c4recMail2 : DNSRecord :=
  ⟨4, bs (r"test.internal"), .MX, bs (r"mail2.test.internal"), 300, 10⟩

/-- MX table whose row order disagrees with ascending id. -/
def c4table : List DNSRecord := [c4recMail, c4recMail2]

/-- The MX query of spec scenario 2. -/
def c4query : LookupQuery := ⟨bs (r"test.internal"), .MX⟩

/-- Spec scenario 3: the SOA record at `test.internal`. -/
def soaDemoRec : DNSRecord :=
  ⟨5, bs (r"test.internal"), .SOA,
   bs (r"ns1.test.internal admin.test.internal 2025061901 3600 1800 604800 86400"), 3600, 10⟩

/-- The SOA storage lookup of scenario 3: `PostgresStorage.LookupRecord`
over a store holding only `soaDemoRec`, issued per hierarchy entry exactly
as `resolveSOA` does. -/
def soaDemoLookup (d : ByteStr) : Option DNSRecord :=
  pgLookupRecord 0 0 [soaDemoRec] ⟨d, .SOA⟩

/-- An A record for the mutation scenarios. -/
def c5rec : DNSRecord := ⟨1, bs (r"www.test.internal"), .A, bs (r"10.0.2.20"), 300, 10⟩

/-- A second A record submitted by the create scenario. -/
def c5recNew : DNSRecord := ⟨2, bs (r"www.test.internal"), .A, bs (r"10.0.2.99"), 300, 10⟩

/-- The query for `c5rec`. -/
def c5query : LookupQuery := ⟨bs (r"www.test.internal"), .A⟩

/-- The Redis-facade cache key of `c5query`. -/
def c5key : ByteStr := redisKey c5query

/-- A tiered state in which `(www.test.internal, A)` is materialized at
every tier. -/
def c5state : TieredState :=
  ⟨[c5rec], [(c5key, ⟨[c5rec], 100, 0⟩)], [(c5key, ⟨[c5rec], 150⟩)]⟩

/-- A store-level create that always succeeds (appends the row). -/
def c5inner (table : List DNSRecord) (r : DNSRecord) : Option (List DNSRecord) :=
  some (table ++ [r])

/-- The tiered state after `redisCreateRecord c5inner c5state c5recNew`. -/
def c5after : TieredState :=
  (redisCreateRecord c5inner c5state c5recNew).getD ⟨[], [], []⟩

/-- The tiered state after `redisDeleteRecord c5state 1`. -/
def c5afterDelete : TieredState := (redisDeleteRecord c5state 1).getD ⟨[], [], []⟩

/-- A memory-only cached state over the same record with an empty cache. -/
def c6state : CachedState := ⟨[c5rec], []⟩

/-- A tiered state over the same record with empty caches. -/
def c6tstate : TieredState := ⟨[c5rec], [], []⟩

/-- A TLSA record, for the domain-invalidation scenario. -/
def c7name : ByteStr := bs (r"secure.test.internal")

/-- The TLSA record stored at `c7name`. -/
def c7rec : DNSRecord := ⟨6, c7name, .TLSA, bs (r"3 1 1 abcdef"), 300, 10⟩

/-- The Redis-facade cache key for `(c7name, TLSA)`. -/
def c7key : ByteStr := redisKey (NewLookupQuery c7name .TLSA)

/-- A tiered state in which the TLSA group is cached at L1 and L2. -/
def c7state : TieredState :=
  ⟨[c7rec], [(c7key, ⟨[c7rec], 100, 0⟩)], [(c7key, ⟨[c7rec], 150⟩)]⟩

/-- The tiered state after `redisDeleteRecords c7state c7name none`. -/
def c7after : TieredState := (redisDeleteRecords c7state c7name none).getD ⟨[], [], []⟩

/-- Two-phase scenario: the minimum-priority row of `(a, A)` (id 1). -/
def c8rec1 : DNSRecord := ⟨1, bs (r"a.test.internal"), .A, bs (r"10.0.0.1"), 300, 10⟩

/-- Two-phase scenario: the priority-20 row of `(a, A)` (id 2). -/
def c8rec2 : DNSRecord := ⟨2, bs (r"a.test.internal"), .A, bs (r"10.0.0.2"), 300, 20⟩

/-- The query of the two-phase scenario. -/
def c8query : LookupQuery := ⟨bs (r"a.test.internal"), .A⟩

/-- The L1 cache key used by the `MemoryCache` scenarios. -/
def c9key : ByteStr := cacheKey c5query

/-! ## Helper lemmas -/

theorem minPrio_eq_none (l : List Int) : minPrio l = none ↔ l = [] := by
  cases l with
  | nil => simp [minPrio]
  | cons x xs => cases h : minPrio xs <;> simp [minPrio, h]

theorem minPrio_spec (l : List Int) : ∀ m, minPrio l = some m ↔ m ∈ l ∧ ∀ x ∈ l, m ≤ x := by
  induction l with
  | nil => intro m; simp [minPrio]
  | cons x xs ih =>
    intro m
    cases h : minPrio xs with
    | none =>
      have hx : xs = [] := (minPrio_eq_none xs).mp h
      subst hx
      constructor
      · intro hm
        simp only [minPrio] at hm
        have : x = m := by injection hm
        subst this
        exact ⟨List.mem_singleton_self x, fun y hy => le_of_eq (List.mem_singleton.mp hy).symm⟩
      · rintro ⟨hmem, _⟩
        have : m = x := List.mem_singleton.mp hmem
        subst this
        simp [minPrio]
    | some mx =>
      have hspec := (ih mx).mp h
      constructor
      · intro hm
        simp only [minPrio, h] at hm
        have hm' : min x mx = m := by injection hm
        subst hm'
        refine ⟨?_, ?_⟩
        · rcases le_total x mx with hxm | hmx
          · rw [min_eq_left hxm]; exact List.mem_cons_self x xs
          · rw [min_eq_right hmx]; exact List.mem_cons_of_mem x hspec.1
        · intro y hy
          rcases List.mem_cons.mp hy with h' | hyx
          · rw [h']; exact min_le_left x mx
          · exact le_trans (min_le_right x mx) (hspec.2 y hyx)
      · rintro ⟨hmem, hle⟩
        simp only [minPrio, h]
        have h1 : m ≤ x := hle x (List.mem_cons_self x xs)
        have h2 : m ≤ mx := hle mx (List.mem_cons_of_mem x hspec.1)
        have h3 : min x mx ≤ m := by
          rcases List.mem_cons.mp hmem with h' | hm'
          · rw [← h']; exact min_le_left m mx
          · exact le_trans (min_le_right x mx) (hspec.2 m hm')
        rw [le_antisymm h3 (le_min h1 h2)]

theorem mem_lookupRecordGroup (table : List DNSRecord) (q : LookupQuery) (r : DNSRecord) :
    r ∈ lookupRecordGroup table q ↔
      r ∈ table ∧ matchesQuery q r = true ∧
        ∀ r' ∈ table, matchesQuery q r' = true → r.priority ≤ r'.priority := by
  unfold lookupRecordGroup
  cases h : minPrio ((table.filter (matchesQuery q)).map (·.priority)) with
  | none =>
    have hmap : (table.filter (matchesQuery q)).map (·.priority) = [] := (minPrio_eq_none _).mp h
    have hf : table.filter (matchesQuery q) = [] := List.map_eq_nil_iff.mp hmap
    simp only [h]
    constructor
    · intro hr; exact absurd hr (List.not_mem_nil r)
    · rintro ⟨hrt, hrm, _⟩
      have : r ∈ table.filter (matchesQuery q) := List.mem_filter.mpr ⟨hrt, hrm⟩
      rw [hf] at this
      exact absurd this (List.not_mem_nil r)
  | some m =>
    have hspec := (minPrio_spec _ m).mp h
    simp only [h]
    constructor
    · intro hr
      rw [List.mem_insertionSort, List.mem_filter, List.mem_filter] at hr
      obtain ⟨⟨hrt, hrm⟩, hrp⟩ := hr
      have hrp' : r.priority = m := by simpa using hrp
      refine ⟨hrt, hrm, ?_⟩
      intro r' hr't hr'm
      have hmem : r'.priority ∈ (table.filter (matchesQuery q)).map (·.priority) :=
        List.mem_map_of_mem _ (List.mem_filter.mpr ⟨hr't, hr'm⟩)
      rw [hrp']
      exact hspec.2 _ hmem
    · rintro ⟨hrt, hrm, hmin⟩
      have hrmem : r ∈ table.filter (matchesQuery q) := List.mem_filter.mpr ⟨hrt, hrm⟩
      obtain ⟨r0, hr0mem, hr0p⟩ := List.mem_map.mp hspec.1
      have hr0f := List.mem_filter.mp hr0mem
      have h1 : r.priority ≤ m := by rw [← hr0p]; exact hmin r0 hr0f.1 hr0f.2
      have h2 : m ≤ r.priority := hspec.2 _ (List.mem_map_of_mem _ hrmem)
      rw [List.mem_insertionSort, List.mem_filter]
      exact ⟨hrmem, by simpa using le_antisymm h1 h2⟩

theorem lookupRecordGroup_sorted (table : List DNSRecord) (q : LookupQuery) :
    List.Sorted recIdLE (lookupRecordGroup table q) := by
  unfold lookupRecordGroup
  split
  · exact List.sorted_nil
  · exact List.sorted_insertionSort recIdLE _

theorem lookupRecordGroup_eq_nil (table : List DNSRecord) (q : LookupQuery)
    (h : ∀ r ∈ table, matchesQuery q r = false) : lookupRecordGroup table q = [] := by
  have hf : table.filter (matchesQuery q) = [] :=
    List.filter_eq_nil_iff.mpr (by intro a ha; simp [h a ha])
  unfold lookupRecordGroup
  rw [hf]
  rfl

theorem assocGet_assocSet_self {β : Type} (k : ByteStr) (v : β) (c : List (ByteStr × β)) :
    assocGet k (assocSet k v c) = some v := by
  induction c with
  | nil => simp [assocSet, assocGet]
  | cons p rest ih =>
    obtain ⟨k', v'⟩ := p
    by_cases h : k' = k
    · simp [assocSet, assocGet, h]
    · simp [assocSet, assocGet, h, ih]

theorem assocGet_assocErase {β : Type} (ke kq : ByteStr) (c : List (ByteStr × β)) :
    assocGet kq (assocErase ke c) = if ke = kq then none else assocGet kq c := by
  induction c with
  | nil => by_cases h : ke = kq <;> simp [assocErase, assocGet, h]
  | cons p rest ih =>
    obtain ⟨k2, v2⟩ := p
    by_cases h2 : k2 = ke
    · subst h2
      by_cases h3 : k2 = kq
      · subst h3
        simp [assocErase, assocGet, ih]
      · simp [assocErase, assocGet, h3, ih]
    · by_cases h3 : k2 = kq
      · subst h3
        have h4 : ¬ke = k2 := fun hh => h2 hh.symm
        simp [assocErase, assocGet, h2, h4]
      · simp [assocErase, assocGet, h2, h3, ih]

theorem toLowerByte_idem (b : Nat) : toLowerByte (toLowerByte b) = toLowerByte b := by
  simp only [toLowerByte]
  split_ifs <;> omega

theorem toLowerByte_eq_dot {b : Nat} (h : toLowerByte b = 46) : b = 46 := by
  simp only [toLowerByte] at h
  split_ifs at h <;> omega

theorem toLowerStr_idem (s : ByteStr) : toLowerStr (toLowerStr s) = toLowerStr s := by
  unfold toLowerStr
  rw [List.map_map]
  exact List.map_congr_left fun a _ => toLowerByte_idem a

theorem resolveSOAWalk_none (lookup : ByteStr → Option DNSRecord) (qn : ByteStr) :
    ∀ ds, (∀ d ∈ ds, lookup d = none) → resolveSOAWalk lookup qn ds = none := by
  intro ds
  induction ds with
  | nil => intro _; rfl
  | cons d rest ih =>
    intro h
    have hd := h d (List.mem_cons_self d rest)
    simp only [resolveSOAWalk, hd]
    exact ih fun p hp => h p (List.mem_cons_of_mem d hp)

theorem resolveSOAWalk_first (lookup : ByteStr → Option DNSRecord) (qn d : ByteStr)
    (r : DNSRecord) (rest : List ByteStr) (hd : lookup d = some r) :
    ∀ pre, (∀ p ∈ pre, lookup p = none) →
      resolveSOAWalk lookup qn (pre ++ d :: rest) = some { r with name := qn } := by
  intro pre
  induction pre with
  | nil => intro _; simp [resolveSOAWalk, hd]
  | cons p ps ih =>
    intro hpre
    have hp := hpre p (List.mem_cons_self p ps)
    simp only [List.cons_append, resolveSOAWalk, hp]
    exact ih fun x hx => hpre x (List.mem_cons_of_mem p hx)

theorem cachedSelectFromArrayRR_mem {recs : List DNSRecord} {hq t : Nat} {r : DNSRecord}
    (h : cachedSelectFromArrayRR recs hq t = some r) : r ∈ recs := by
  rcases recs with _ | ⟨a, _ | ⟨b, l⟩⟩
  · exact absurd h (by simp [cachedSelectFromArrayRR])
  · have : a = r := by simpa [cachedSelectFromArrayRR] using h
    rw [← this]
    exact List.mem_singleton_self a
  · exact List.get?_mem h

theorem redisSelectFromArray_mem {recs : List DNSRecord} {r : DNSRecord}
    (h : redisSelectFromArray recs = some r) : r ∈ recs := by
  rcases recs with _ | ⟨a, l⟩
  · exact absurd h (by simp [redisSelectFromArray])
  · have : a = r := by simpa [redisSelectFromArray] using h
    rw [← this]
    exact List.mem_cons_self a l

/-! ## Claim theorems -/

/-- Claim C1: for every query, `LookupRecordGroup` returns exactly the stored
records matching the name and type whose priority equals the minimum among
them, ordered by ascending id, and returns empty (without error) when
nothing matches. -/
theorem c1_lookup_group_spec (table : List DNSRecord) (q : LookupQuery) :
    List.Sorted recIdLE (lookupRecordGroup table q) ∧
    (∀ r, r ∈ lookupRecordGroup table q ↔
      r ∈ table ∧ matchesQuery q r = true ∧
        ∀ r' ∈ table, matchesQuery q r' = true → r.priority ≤ r'.priority) ∧
    ((∀ r ∈ table, matchesQuery q r = false) → lookupRecordGroup table q = []) :=
  ⟨lookupRecordGroup_sorted table q, fun r => mem_lookupRecordGroup table q r,
   lookupRecordGroup_eq_nil table q⟩

/-- Witness for C1: the spec-scenario store evaluated concretely. -/
theorem c1_lookup_group_spec_witness :
    List.Sorted recIdLE (lookupRecordGroup demoTable demoQuery) ∧
    lookupRecordGroup ([] : List DNSRecord) demoQuery = [] :=
  ⟨(c1_lookup_group_spec demoTable demoQuery).1,
   (c1_lookup_group_spec [] demoQuery).2.2 (by decide)⟩

/-- Claim C10, counterexample: `NormalizeDomainName` strips only one
trailing dot, so on the input `a..` a second application strips another dot
and idempotence fails. -/
theorem c10_normalize_idem_counterexample :
    NormalizeDomainName (NormalizeDomainName (bs (r"a.."))) ≠ NormalizeDomainName (bs (r"a..")) := by
  decide

/-- Claim C10 (amended): `NormalizeDomainName` is idempotent on every input
that does not end in two consecutive dots, i.e. whenever one
`TrimSuffix` application already removes all trailing dots. -/
theorem c10_normalize_idem_amended (s : ByteStr)
    (h : (trimDotSuffix s).getLast? ≠ some 46) :
    NormalizeDomainName (NormalizeDomainName s) = NormalizeDomainName s := by
  have hlast : ¬(NormalizeDomainName s).getLast? = some 46 := by
    intro hc
    unfold NormalizeDomainName toLowerStr at hc
    rw [List.getLast?_map] at hc
    cases hl : (trimDotSuffix s).getLast? with
    | none => rw [hl] at hc; simp at hc
    | some b =>
      rw [hl] at hc
      simp only [Option.map_some'] at hc
      have hb : toLowerByte b = 46 := by injection hc
      exact h (by rw [hl, toLowerByte_eq_dot hb])
  have h2 : trimDotSuffix (NormalizeDomainName s) = NormalizeDomainName s := by
    unfold trimDotSuffix
    rw [if_neg hlast]
  calc NormalizeDomainName (NormalizeDomainName s)
      = toLowerStr (trimDotSuffix (NormalizeDomainName s)) := rfl
    _ = toLowerStr (NormalizeDomainName s) := by rw [h2]
    _ = NormalizeDomainName s := toLowerStr_idem _

/-- Witness for C10 (amended), on a mixed-case name with one trailing dot. -/
theorem c10_normalize_idem_witness :
    NormalizeDomainName (NormalizeDomainName (bs (r"Ab.c."))) = NormalizeDomainName (bs (r"Ab.c.")) :=
  c10_normalize_idem_amended _ (by decide)

/-- Claim C9, counterexample: at the exact instant `now = expires_at`
(entry set at time 0 with ttl 5, read at time 5), `MemoryCache.Get` returns
a hit, not the miss the claim requires (`time.Now().After` is strict). -/
theorem c9_l1_expiry_boundary_counterexample :
    (memGet 5 c9key (memSet 0 c9key [c5rec] 5 [])).1 = some [c5rec] ∧ ¬(5 : Nat) < 0 + 5 := by
  constructor
  · decide
  · decide

/-- Claim C9 (amended): after `set(k, v, t)` the entry's `expires_at` is
`now + t`; a `get(k)` at `now'` returns `v` when `now' ≤ expires_at` and a
miss exactly when the key is absent or `expires_at < now'` (expiry is
strict); a `get` that finds an expired entry removes it. -/
theorem c9_l1_cache_amended :
    (∀ (c : MemCache) (now : Nat) (k : ByteStr) (recs : List DNSRecord) (t : Nat),
        assocGet k (memSet now k recs t c) = some ⟨recs, now + t, now⟩) ∧
    (∀ (c : MemCache) (now : Nat) (k : ByteStr) (recs : List DNSRecord) (t now' : Nat),
        now' ≤ now + t → (memGet now' k (memSet now k recs t c)).1 = some recs) ∧
    (∀ (c : MemCache) (now' : Nat) (k : ByteStr) (e : CacheEntry),
        assocGet k c = some e → e.expiresAt < now' →
          (memGet now' k c).1 = none ∧ assocGet k (memGet now' k c).2 = none) ∧
    (∀ (c : MemCache) (now' : Nat) (k : ByteStr), (memGet now' k c).1 = none ↔
        assocGet k c = none ∨ ∃ e, assocGet k c = some e ∧ e.expiresAt < now') := by
  refine ⟨?_, ?_, ?_, ?_⟩
  · intro c now k recs t
    unfold memSet
    exact assocGet_assocSet_self k _ c
  · intro c now k recs t now' h
    unfold memGet memSet
    rw [assocGet_assocSet_self]
    dsimp only
    rw [if_neg (by omega)]
  · intro c now' k e hsome hexp
    unfold memGet
    rw [hsome]
    dsimp only
    rw [if_pos hexp]
    refine ⟨rfl, ?_⟩
    rw [assocGet_assocErase]
    exact if_pos rfl
  · intro c now' k
    cases hg : assocGet k c with
    | none =>
      unfold memGet
      rw [hg]
      simp
    | some e =>
      unfold memGet
      rw [hg]
      dsimp only
      by_cases hexp : e.expiresAt < now'
      · rw [if_pos hexp]
        exact ⟨fun _ => Or.inr ⟨e, rfl, hexp⟩, fun _ => rfl⟩
      · rw [if_neg hexp]
        constructor
        · intro hfalse
          exact absurd hfalse (by simp)
        · rintro (hnone | ⟨e', he', hexp'⟩)
          · exact absurd hnone (by simp)
          · have : e' = e := (Option.some.inj he').symm
            rw [this] at hexp'
            exact absurd hexp' hexp

/-- Witness for C9 (amended): set at 0 with ttl 5, read at 3 (hit) and at 7
(miss with removal). -/
theorem c9_l1_cache_amended_witness :
    (memGet 3 c9key (memSet 0 c9key [c5rec] 5 [])).1 = some [c5rec] ∧
    (memGet 7 c9key (memSet 0 c9key [c5rec] 5 [])).1 = none ∧
    assocGet c9key (memGet 7 c9key (memSet 0 c9key [c5rec] 5 [])).2 = none := by
  have h := c9_l1_cache_amended.2.2.1 (memSet 0 c9key [c5rec] 5 []) 7 c9key ⟨[c5rec], 0 + 5, 0⟩
    (by decide) (by decide)
  exact ⟨c9_l1_cache_amended.2.1 [] 0 c9key [c5rec] 5 3 (by decide), h.1, h.2⟩

/-- Claim C3: for every SOA query the resolver walks the suffix hierarchy
from most-specific to least-specific, returns the first SOA found with its
name rewritten to the original query name, and returns NotFound (`none`)
when no hierarchy entry carries a SOA; concretely, with a SOA at
`test.internal` the query `(api.v1.test.internal, SOA)` yields that SOA
renamed to `api.v1.test.internal`. -/
theorem c3_soa_hierarchy_walk :
    (∀ (lookup : ByteStr → Option DNSRecord) (name : ByteStr),
        (∀ d ∈ generateDomainHierarchy name, lookup d = none) →
          resolveSOA lookup name = none) ∧
    (∀ (lookup : ByteStr → Option DNSRecord) (name : ByteStr) (pre : List ByteStr)
        (d : ByteStr) (rest : List ByteStr) (r0 : DNSRecord),
        generateDomainHierarchy name = pre ++ d :: rest →
        (∀ p ∈ pre, lookup p = none) → lookup d = some r0 →
          resolveSOA lookup name = some { r0 with name := name }) ∧
    (generateDomainHierarchy (bs (r"api.v1.test.internal")) =
      [bs (r"api.v1.test.internal"), bs (r"v1.test.internal"), bs (r"test.internal"),
       bs (r"internal")]) ∧
    (resolveSOA soaDemoLookup (bs (r"api.v1.test.internal")) =
      some { soaDemoRec with name := bs (r"api.v1.test.internal") }) := by
  refine ⟨?_, ?_, by decide, by decide⟩
  · intro lookup name h
    exact resolveSOAWalk_none lookup name _ h
  · intro lookup name pre d rest r0 hsplit hpre hd
    unfold resolveSOA
    rw [hsplit]
    exact resolveSOAWalk_first lookup name d r0 rest hd pre hpre

/-- Witness for C3: an all-miss walk returns NotFound, and the scenario-3
walk is reproduced through the general clause. -/
theorem c3_soa_hierarchy_walk_witness :
    resolveSOA (fun _ => none) (bs (r"no.soa.anywhere")) = none ∧
    resolveSOA soaDemoLookup (bs (r"api.v1.test.internal")) =
      some { soaDemoRec with name := bs (r"api.v1.test.internal") } :=
  ⟨c3_soa_hierarchy_walk.1 (fun _ => none) _ (fun _ _ => rfl),
   c3_soa_hierarchy_walk.2.1 soaDemoLookup _
     [bs (r"api.v1.test.internal"), bs (r"v1.test.internal")] (bs (r"test.internal"))
     [bs (r"internal")] soaDemoRec (by decide) (by decide) (by decide)⟩

/-- Claim C4, counterexample: `LookupRecords` runs
`ORDER BY priority ASC` with no secondary key, so with two equal-priority MX
rows stored in descending-id order the result is not ordered by ascending id
within the tie (id 9 precedes id 4). -/
theorem c4_multi_answer_order_counterexample :
    lookupRecords c4table c4query = [c4recMail, c4recMail2] ∧
    ¬ List.Sorted (fun a b : DNSRecord =>
        a.priority < b.priority ∨ (a.priority = b.priority ∧ a.id ≤ b.id))
      (lookupRecords c4table c4query) := by
  constructor
  · decide
  · decide

/-- Claim C4 (amended): for MX/NS/SRV queries the resolver returns all
records stored for the name and type ordered by ascending priority; the
relative order of records with equal priority is not constrained by the
query (it reflects storage order, not ascending id). -/
theorem c4_multi_answer_amended (table : List DNSRecord) (q : LookupQuery) :
    List.Sorted recPrioLE (lookupRecords table q) ∧
    (∀ r, r ∈ lookupRecords table q ↔ r ∈ table ∧ matchesQuery q r = true) := by
  constructor
  · unfold lookupRecords
    exact List.sorted_insertionSort recPrioLE _
  · intro r
    unfold lookupRecords
    rw [List.mem_insertionSort, List.mem_filter]

/-- Witness for C4 (amended), on the MX scenario store. -/
theorem c4_multi_answer_amended_witness :
    List.Sorted recPrioLE (lookupRecords c4table c4query) ∧
    c4recMail ∈ lookupRecords c4table c4query :=
  ⟨(c4_multi_answer_amended c4table c4query).1,
   ((c4_multi_answer_amended c4table c4query).2 c4recMail).mpr ⟨by decide, by decide⟩⟩

/-- Claim C8: `LookupRecordGroup` issues the `MIN(priority)` query and the
row fetch as two separate pool queries with no transaction; deleting the
minimum-priority row between the phases yields an empty answer that is the
record group of neither snapshot, while the one-snapshot runs return the
proper groups. -/
theorem c8_two_phase_split :
    pgDeleteRecordById [c8rec1, c8rec2] 1 = some [c8rec2] ∧
    lookupRecordGroupTwoPhase [c8rec1, c8rec2] [c8rec2] c8query = [] ∧
    lookupRecordGroup [c8rec1, c8rec2] c8query = [c8rec1] ∧
    lookupRecordGroup [c8rec2] c8query = [c8rec2] ∧
    lookupRecordGroupTwoPhase [c8rec1, c8rec2] [c8rec1, c8rec2] c8query =
      lookupRecordGroup [c8rec1, c8rec2] c8query :=
  ⟨by decide, by decide, by decide, by decide, by decide⟩

/-- Claim C2, counterexample: under the round_robin policy with hash value
0, time 5 s (bucket 1) and a two-record minimum-priority group, the claimed
index formula picks index 1, yet `RedisCacheStorage.selectFromArray` (one of
the two cited selectors) returns the record at index 0. -/
theorem c2_redis_select_formula_counterexample :
    roundRobinIndex 0 5 2 = 1 ∧
    redisSelectFromArray [demoRec20, demoRec21] = some demoRec20 ∧
    [demoRec20, demoRec21].get? (roundRobinIndex 0 5 2) = some demoRec21 ∧
    demoRec20 ≠ demoRec21 :=
  ⟨by decide, by decide, by decide, by decide⟩

/-- Claim C2 (amended): `CachedStorage.selectFromArray` under round_robin is
deterministic within a 5-second bucket, follows
`i = (H + floor(now/5)) mod n` (exactly, absent 64-bit wrap), and rotates
across adjacent buckets; `RedisCacheStorage.selectFromArray` instead always
returns the group's first record; both selectors only ever return a member
of the minimum-priority group, so a record with a higher priority value is
never returned. -/
theorem c2_selector_amended :
    (∀ (recs : List DNSRecord) (hq t1 t2 : Nat), t1 / 5 = t2 / 5 →
        cachedSelectFromArrayRR recs hq t1 = cachedSelectFromArrayRR recs hq t2) ∧
    (∀ (recs : List DNSRecord) (hq t : Nat), 2 ≤ recs.length → hq + t / 5 < 2 ^ 64 →
        cachedSelectFromArrayRR recs hq t = recs.get? ((hq + t / 5) % recs.length)) ∧
    (∀ (hq t1 t2 n : Nat), 2 ≤ n → hq + t1 / 5 + 1 < 2 ^ 64 → t2 / 5 = t1 / 5 + 1 →
        roundRobinIndex hq t1 n ≠ roundRobinIndex hq t2 n) ∧
    (∀ (table : List DNSRecord) (q : LookupQuery) (hq t : Nat) (r : DNSRecord),
        cachedSelectFromArrayRR (lookupRecordGroup table q) hq t = some r →
          r ∈ table ∧ matchesQuery q r = true ∧
            ∀ r' ∈ table, matchesQuery q r' = true → r.priority ≤ r'.priority) ∧
    (∀ (table : List DNSRecord) (q : LookupQuery) (r : DNSRecord),
        redisSelectFromArray (lookupRecordGroup table q) = some r →
          r ∈ table ∧ matchesQuery q r = true ∧
            ∀ r' ∈ table, matchesQuery q r' = true → r.priority ≤ r'.priority) ∧
    (∀ (r0 : DNSRecord) (rs : List DNSRecord), redisSelectFromArray (r0 :: rs) = some r0) := by
  refine ⟨?_, ?_, ?_, ?_, ?_, fun _ _ => rfl⟩
  · intro recs hq t1 t2 h
    rcases recs with _ | ⟨a, _ | ⟨b, l⟩⟩
    · rfl
    · rfl
    · simp only [cachedSelectFromArrayRR, roundRobinIndex, h]
  · intro recs hq t h2 hlt
    rcases recs with _ | ⟨a, _ | ⟨b, l⟩⟩
    · simp at h2
    · simp at h2
    · have hn : ¬(a :: b :: l).length ≤ 1 := by simp
      have hhq : hq < 2 ^ 64 := by omega
      have ht5 : t / 5 < 2 ^ 64 := by omega
      show (a :: b :: l).get? (roundRobinIndex hq t (a :: b :: l).length) = _
      unfold roundRobinIndex
      rw [if_neg hn, Nat.mod_eq_of_lt hhq, Nat.mod_eq_of_lt ht5, Nat.mod_eq_of_lt hlt]
  · intro hq t1 t2 n hn hlt h12
    have hn1 : ¬n ≤ 1 := by omega
    have hhq : hq < 2 ^ 64 := by omega
    have ht1 : t1 / 5 < 2 ^ 64 := by omega
    have hs1 : hq + t1 / 5 < 2 ^ 64 := by omega
    have ht2 : t2 / 5 < 2 ^ 64 := by rw [h12]; omega
    have hs2 : hq + t2 / 5 < 2 ^ 64 := by rw [h12]; omega
    unfold roundRobinIndex
    rw [if_neg hn1, if_neg hn1, Nat.mod_eq_of_lt hhq, Nat.mod_eq_of_lt ht1,
      Nat.mod_eq_of_lt ht2, Nat.mod_eq_of_lt hs1, Nat.mod_eq_of_lt hs2, h12, ← Nat.add_assoc]
    intro heq
    have hdvd : n ∣ hq + t1 / 5 + 1 - (hq + t1 / 5) :=
      (Nat.modEq_iff_dvd' (Nat.le_succ _)).mp heq
    have h1 : n ∣ 1 := by simpa using hdvd
    exact absurd (Nat.dvd_one.mp h1) (by omega)
  · intro table q hq t r h
    exact (mem_lookupRecordGroup table q r).mp (cachedSelectFromArrayRR_mem h)
  · intro table q r h
    exact (mem_lookupRecordGroup table q r).mp (redisSelectFromArray_mem h)

/-- Witness for C2 (amended): concrete instances of bucket determinism
(7 s and 9 s share bucket 1), the index formula, bucket rotation, and
minimum-priority membership of the Redis selection. -/
theorem c2_selector_amended_witness :
    cachedSelectFromArrayRR demoTable 0 7 = cachedSelectFromArrayRR demoTable 0 9 ∧
    cachedSelectFromArrayRR [demoRec20, demoRec21] 0 5 =
      [demoRec20, demoRec21].get? ((0 + 5 / 5) % [demoRec20, demoRec21].length) ∧
    roundRobinIndex 0 0 2 ≠ roundRobinIndex 0 5 2 ∧
    (demoRec20 ∈ demoTable ∧ matchesQuery demoQuery demoRec20 = true ∧
      ∀ r' ∈ demoTable, matchesQuery demoQuery r' = true →
        demoRec20.priority ≤ r'.priority) :=
  ⟨c2_selector_amended.1 demoTable 0 7 9 (by decide),
   c2_selector_amended.2.1 [demoRec20, demoRec21] 0 5 (by decide) (by decide),
   c2_selector_amended.2.2.1 0 0 5 2 (by decide) (by decide) (by decide),
   c2_selector_amended.2.2.2.2.1 demoTable demoQuery demoRec20 (by decide)⟩

theorem memGet_of_assocGet_none {now : Nat} {k : ByteStr} {c : MemCache}
    (h : assocGet k c = none) : memGet now k c = (none, c) := by
  unfold memGet
  rw [h]

theorem redisCreateRecord_eq_some {inner : List DNSRecord → DNSRecord → Option (List DNSRecord)}
    {st : TieredState} {r : DNSRecord} {st' : TieredState}
    (h : redisCreateRecord inner st r = some st') :
    inner st.store r = some st'.store ∧
    st'.l1 = memDelete (redisKey (NewLookupQuery r.name r.recordType)) st.l1 ∧
    st'.l2 = assocErase (redisKey (NewLookupQuery r.name r.recordType)) st.l2 := by
  cases hi : inner st.store r with
  | none =>
    unfold redisCreateRecord at h
    rw [hi] at h
    exact absurd h (by simp)
  | some s' =>
    unfold redisCreateRecord at h
    rw [hi] at h
    have h2 := Option.some.inj h
    rw [← h2]
    exact ⟨rfl, rfl, rfl⟩

theorem redisUpdateRecord_eq_some {inner : List DNSRecord → DNSRecord → Option (List DNSRecord)}
    {st : TieredState} {r : DNSRecord} {st' : TieredState}
    (h : redisUpdateRecord inner st r = some st') :
    inner st.store r = some st'.store ∧
    st'.l1 = memDelete (redisKey (NewLookupQuery r.name r.recordType)) st.l1 ∧
    st'.l2 = assocErase (redisKey (NewLookupQuery r.name r.recordType)) st.l2 := by
  cases hi : inner st.store r with
  | none =>
    unfold redisUpdateRecord at h
    rw [hi] at h
    exact absurd h (by simp)
  | some s' =>
    unfold redisUpdateRecord at h
    rw [hi] at h
    have h2 := Option.some.inj h
    rw [← h2]
    exact ⟨rfl, rfl, rfl⟩

theorem redisLookup_store_path {now : Nat} {st : TieredState} {q : LookupQuery}
    (h1 : assocGet (redisKey q) st.l1 = none) (h2 : assocGet (redisKey q) st.l2 = none) :
    (redisLookupRecord now st q).1 = redisSelectFromArray (lookupRecordGroup st.store q) := by
  have hm : memGet now (redisKey q) st.l1 = (none, st.l1) := memGet_of_assocGet_none h1
  unfold redisLookupRecord
  rw [hm, h2]
  cases hg : lookupRecordGroup st.store q with
  | nil => rfl
  | cons r0 rs => rfl

theorem redisInvalidateNameType_l1_none (name : ByteStr) (u : RecordType) {k : ByteStr}
    (st : TieredState) (h : assocGet k st.l1 = none) :
    assocGet k (redisInvalidateNameType name u st).l1 = none := by
  unfold redisInvalidateNameType memDelete
  dsimp only
  rw [assocGet_assocErase]
  split_ifs with hk
  · rfl
  · exact h

theorem redisInvalidateNameType_l2_none (name : ByteStr) (u : RecordType) {k : ByteStr}
    (st : TieredState) (h : assocGet k st.l2 = none) :
    assocGet k (redisInvalidateNameType name u st).l2 = none := by
  unfold redisInvalidateNameType
  dsimp only
  rw [assocGet_assocErase]
  split_ifs with hk
  · rfl
  · exact h

theorem redisInvalidateNameType_self_l1 (name : ByteStr) (u : RecordType) (st : TieredState) :
    assocGet (redisKey (NewLookupQuery name u)) (redisInvalidateNameType name u st).l1 = none := by
  unfold redisInvalidateNameType memDelete
  dsimp only
  rw [assocGet_assocErase]
  exact if_pos rfl

theorem redisInvalidateNameType_self_l2 (name : ByteStr) (u : RecordType) (st : TieredState) :
    assocGet (redisKey (NewLookupQuery name u)) (redisInvalidateNameType name u st).l2 = none := by
  unfold redisInvalidateNameType
  dsimp only
  rw [assocGet_assocErase]
  exact if_pos rfl

theorem redisFold_preserve (name k : ByteStr) :
    ∀ (us : List RecordType) (st : TieredState),
      assocGet k st.l1 = none → assocGet k st.l2 = none →
      assocGet k (List.foldl (fun s u => redisInvalidateNameType name u s) st us).l1 = none ∧
      assocGet k (List.foldl (fun s u => redisInvalidateNameType name u s) st us).l2 = none := by
  intro us
  induction us with
  | nil => intro st h1 h2; exact ⟨h1, h2⟩
  | cons u us ih =>
    intro st h1 h2
    rw [List.foldl_cons]
    exact ih _ (redisInvalidateNameType_l1_none name u st h1)
      (redisInvalidateNameType_l2_none name u st h2)

theorem redisFold_mem_none (name : ByteStr) :
    ∀ (ts : List RecordType) (st : TieredState) (t : RecordType), t ∈ ts →
      assocGet (redisKey (NewLookupQuery name t))
          (List.foldl (fun s u => redisInvalidateNameType name u s) st ts).l1 = none ∧
      assocGet (redisKey (NewLookupQuery name t))
          (List.foldl (fun s u => redisInvalidateNameType name u s) st ts).l2 = none := by
  intro ts
  induction ts with
  | nil => intro st t ht; exact absurd ht (List.not_mem_nil t)
  | cons u us ih =>
    intro st t ht
    rw [List.foldl_cons]
    rcases List.mem_cons.mp ht with h' | h'
    · subst h'
      exact redisFold_preserve name _ us _ (redisInvalidateNameType_self_l1 name t st)
        (redisInvalidateNameType_self_l2 name t st)
    · exact ih _ t h'

theorem cachedInvalidateNameType_none (name : ByteStr) (u : RecordType) {k : ByteStr}
    (st : CachedState) (h : assocGet k st.cache = none) :
    assocGet k (cachedInvalidateNameType name u st).cache = none := by
  unfold cachedInvalidateNameType memDelete
  dsimp only
  rw [assocGet_assocErase]
  split_ifs with hk
  · rfl
  · exact h

theorem cachedInvalidateNameType_self (name : ByteStr) (u : RecordType) (st : CachedState) :
    assocGet (cacheKey (NewLookupQuery name u)) (cachedInvalidateNameType name u st).cache =
      none := by
  unfold cachedInvalidateNameType memDelete
  dsimp only
  rw [assocGet_assocErase]
  exact if_pos rfl

theorem cachedFold_preserve (name k : ByteStr) :
    ∀ (us : List RecordType) (st : CachedState), assocGet k st.cache = none →
      assocGet k (List.foldl (fun s u => cachedInvalidateNameType name u s) st us).cache =
        none := by
  intro us
  induction us with
  | nil => intro st h1; exact h1
  | cons u us ih =>
    intro st h1
    rw [List.foldl_cons]
    exact ih _ (cachedInvalidateNameType_none name u st h1)

theorem cachedFold_mem_none (name : ByteStr) :
    ∀ (ts : List RecordType) (st : CachedState) (t : RecordType), t ∈ ts →
      assocGet (cacheKey (NewLookupQuery name t))
          (List.foldl (fun s u => cachedInvalidateNameType name u s) st ts).cache = none := by
  intro ts
  induction ts with
  | nil => intro st t ht; exact absurd ht (List.not_mem_nil t)
  | cons u us ih =>
    intro st t ht
    rw [List.foldl_cons]
    rcases List.mem_cons.mp ht with h' | h'
    · subst h'
      exact cachedFold_preserve name _ us _ (cachedInvalidateNameType_self name t st)
    · exact ih _ t h'

/-- Claim C5, counterexample: `RedisCacheStorage.DeleteRecord` (delete by
id) performs the store deletion and returns without touching the caches, so
the very next resolve for the deleted record's key still serves the deleted
record from L1 instead of reflecting the mutation. -/
theorem c5_delete_by_id_counterexample :
    redisDeleteRecord c5state 1 = some c5afterDelete ∧
    c5afterDelete.store = [] ∧
    c5afterDelete.l1 = c5state.l1 ∧
    c5afterDelete.l2 = c5state.l2 ∧
    (redisLookupRecord 50 c5afterDelete c5query).1 = some c5rec ∧
    lookupRecordGroup c5afterDelete.store c5query = [] :=
  ⟨by decide, by decide, by decide, by decide, by decide, by decide⟩

/-- Claim C5 (amended): create and update perform the store mutation first
and, on success, delete the `(name, type)` key at both L1 and L2, so the
very next resolve for that key reads the mutated store; when the store
mutation fails the facade returns the error and the caches are unchanged;
delete-by-id, however, performs no cache invalidation at all. -/
theorem c5_mutation_invalidation_amended :
    (∀ (inner : List DNSRecord → DNSRecord → Option (List DNSRecord)) (st : TieredState)
        (r : DNSRecord) (st' : TieredState), redisCreateRecord inner st r = some st' →
        inner st.store r = some st'.store ∧
        assocGet (redisKey (NewLookupQuery r.name r.recordType)) st'.l1 = none ∧
        assocGet (redisKey (NewLookupQuery r.name r.recordType)) st'.l2 = none ∧
        ∀ now, (redisLookupRecord now st' (NewLookupQuery r.name r.recordType)).1 =
          redisSelectFromArray
            (lookupRecordGroup st'.store (NewLookupQuery r.name r.recordType))) ∧
    (∀ (inner : List DNSRecord → DNSRecord → Option (List DNSRecord)) (st : TieredState)
        (r : DNSRecord), inner st.store r = none → redisCreateRecord inner st r = none) ∧
    (∀ (inner : List DNSRecord → DNSRecord → Option (List DNSRecord)) (st : TieredState)
        (r : DNSRecord) (st' : TieredState), redisUpdateRecord inner st r = some st' →
        inner st.store r = some st'.store ∧
        assocGet (redisKey (NewLookupQuery r.name r.recordType)) st'.l1 = none ∧
        assocGet (redisKey (NewLookupQuery r.name r.recordType)) st'.l2 = none) ∧
    (∀ (inner : List DNSRecord → DNSRecord → Option (List DNSRecord)) (st : TieredState)
        (r : DNSRecord), inner st.store r = none → redisUpdateRecord inner st r = none) ∧
    (∀ (st : TieredState) (id : Int) (st' : TieredState),
        redisDeleteRecord st id = some st' → st'.l1 = st.l1 ∧ st'.l2 = st.l2) := by
  have hget1 : ∀ (st' : TieredState) (k : ByteStr) (l1 : MemCache),
      st'.l1 = memDelete k l1 → assocGet k st'.l1 = none := by
    intro st' k l1 h
    rw [h]
    unfold memDelete
    rw [assocGet_assocErase]
    exact if_pos rfl
  have hget2 : ∀ (st' : TieredState) (k : ByteStr) (l2 : L2Cache),
      st'.l2 = assocErase k l2 → assocGet k st'.l2 = none := by
    intro st' k l2 h
    rw [h]
    rw [assocGet_assocErase]
    exact if_pos rfl
  refine ⟨?_, ?_, ?_, ?_, ?_⟩
  · intro inner st r st' h
    obtain ⟨hs, h1, h2⟩ := redisCreateRecord_eq_some h
    have hg1 := hget1 st' _ _ h1
    have hg2 := hget2 st' _ _ h2
    exact ⟨hs, hg1, hg2, fun now => redisLookup_store_path hg1 hg2⟩
  · intro inner st r h
    unfold redisCreateRecord
    rw [h]
  · intro inner st r st' h
    obtain ⟨hs, h1, h2⟩ := redisUpdateRecord_eq_some h
    exact ⟨hs, hget1 st' _ _ h1, hget2 st' _ _ h2⟩
  · intro inner st r h
    unfold redisUpdateRecord
    rw [h]
  · intro st id st' h
    cases hd : pgDeleteRecordById st.store id with
    | none =>
      unfold redisDeleteRecord at h
      rw [hd] at h
      exact absurd h (by simp)
    | some s' =>
      unfold redisDeleteRecord at h
      rw [hd] at h
      have h2 := Option.some.inj h
      rw [← h2]
      exact ⟨rfl, rfl⟩

/-- Witness for C5 (amended): creating a second A record for
`www.test.internal` over the fully materialized state empties both cache
tiers for the key, and the deleted-by-id state keeps its caches. -/
theorem c5_mutation_invalidation_amended_witness :
    assocGet (redisKey (NewLookupQuery c5recNew.name c5recNew.recordType)) c5after.l1 = none ∧
    assocGet (redisKey (NewLookupQuery c5recNew.name c5recNew.recordType)) c5after.l2 = none ∧
    c5afterDelete.l1 = c5state.l1 ∧ c5afterDelete.l2 = c5state.l2 :=
  ⟨(c5_mutation_invalidation_amended.1 c5inner c5state c5recNew c5after (by decide)).2.1,
   (c5_mutation_invalidation_amended.1 c5inner c5state c5recNew c5after (by decide)).2.2.1,
   (c5_mutation_invalidation_amended.2.2.2.2 c5state 1 c5afterDelete (by decide)).1,
   (c5_mutation_invalidation_amended.2.2.2.2 c5state 1 c5afterDelete (by decide)).2⟩

/-- Claim C6, counterexample: the cited `CachedStorage.LookupRecord`
populate path (cached.go lines 56–58) caches the group for the full record
TTL (300 s here), not `floor(record_ttl / 10) = 30 s` as the claim states
for every populating read of the facade. -/
theorem c6_cached_ttl_counterexample :
    assocGet (cacheKey c5query) (cachedLookupRecord 0 0 c6state c5query).2.cache =
      some ⟨[c5rec], 0 + 300, 0⟩ ∧
    (300 : Nat) ≠ 300 / 10 :=
  ⟨by decide, by decide⟩

/-- Claim C6 (amended): a store-populating read of the three-tier Redis
facade installs the group at L2 with `ttl_L2 = floor(ttl/2)` seconds and at
L1 with `ttl_L1 = floor(ttl/10)` seconds (so `ttl_L1 ≤ ttl_L2 ≤ ttl`); the
two-tier memory-only facade instead installs L1 with the full record TTL. -/
theorem c6_ttl_derivation_amended :
    (∀ (now : Nat) (st : TieredState) (q : LookupQuery) (r0 : DNSRecord) (rs : List DNSRecord),
        (memGet now (redisKey q) st.l1).1 = none →
        assocGet (redisKey q) st.l2 = none →
        lookupRecordGroup st.store q = r0 :: rs →
          assocGet (redisKey q) (redisLookupRecord now st q).2.l1 =
            some ⟨r0 :: rs, now + r0.ttl / 10, now⟩ ∧
          assocGet (redisKey q) (redisLookupRecord now st q).2.l2 =
            some ⟨r0 :: rs, r0.ttl / 2⟩ ∧
          r0.ttl / 10 ≤ r0.ttl / 2 ∧ r0.ttl / 2 ≤ r0.ttl) ∧
    (∀ (hq now : Nat) (st : CachedState) (q : LookupQuery) (r0 : DNSRecord)
        (rs : List DNSRecord),
        (memGet now (cacheKey q) st.cache).1 = none →
        lookupRecordGroup st.store q = r0 :: rs →
          assocGet (cacheKey q) (cachedLookupRecord hq now st q).2.cache =
            some ⟨r0 :: rs, now + r0.ttl, now⟩) := by
  constructor
  · intro now st q r0 rs h1 h2 h3
    have hred : (redisLookupRecord now st q).2 =
        ⟨st.store,
         memSet now (redisKey q) (r0 :: rs) (r0.ttl / 10) (memGet now (redisKey q) st.l1).2,
         assocSet (redisKey q) ⟨r0 :: rs, r0.ttl / 2⟩ st.l2⟩ := by
      unfold redisLookupRecord
      rw [h1, h2, h3]
    rw [hred]
    refine ⟨?_, ?_, Nat.div_le_div_left (by omega) (by omega), Nat.div_le_self _ _⟩
    · unfold memSet
      exact assocGet_assocSet_self _ _ _
    · exact assocGet_assocSet_self _ _ _
  · intro hq now st q r0 rs h1 h3
    have hred : (cachedLookupRecord hq now st q).2 =
        ⟨st.store,
         memSet now (cacheKey q) (r0 :: rs) r0.ttl (memGet now (cacheKey q) st.cache).2⟩ := by
      unfold cachedLookupRecord
      rw [h1, h3]
    rw [hred]
    unfold memSet
    exact assocGet_assocSet_self _ _ _

/-- Witness for C6 (amended): the populate path evaluated on a 300-second
TTL record through both facades. -/
theorem c6_ttl_derivation_amended_witness :
    assocGet (redisKey c5query) (redisLookupRecord 0 c6tstate c5query).2.l1 =
      some ⟨[c5rec], 0 + 300 / 10, 0⟩ ∧
    assocGet (redisKey c5query) (redisLookupRecord 0 c6tstate c5query).2.l2 =
      some ⟨[c5rec], 300 / 2⟩ ∧
    assocGet (cacheKey c5query) (cachedLookupRecord 0 0 c6state c5query).2.cache =
      some ⟨[c5rec], 0 + 300, 0⟩ := by
  have h := c6_ttl_derivation_amended.1 0 c6tstate c5query c5rec [] (by decide) (by decide)
    (by decide)
  have h2 := c6_ttl_derivation_amended.2 0 0 c6state c5query c5rec [] (by decide) (by decide)
  exact ⟨h.1, h.2.1, h2⟩

/-- Claim C7, counterexample: `invalidateDomain` stops at CAA — TLSA is not
in the enumerated list — so after `DeleteRecords(name, "")` the cached TLSA
group for the name survives at both tiers. -/
theorem c7_domain_invalidation_counterexample :
    redisDeleteRecords c7state c7name none = some c7after ∧
    assocGet c7key c7after.l1 = some ⟨[c7rec], 100, 0⟩ ∧
    assocGet c7key c7after.l2 = some ⟨[c7rec], 150⟩ ∧
    RecordType.TLSA ∉ redisCommonTypes :=
  ⟨by decide, by decide, by decide, by decide⟩

/-- Claim C7 (amended): a successful `DeleteRecords(name, "")` through the
Redis facade invalidates, at both L1 and L2, the entries for the ten
enumerated types A, AAAA, CNAME, TXT, MX, NS, SOA, PTR, SRV, CAA (TLSA is
not invalidated); the memory-only facade covers only A, AAAA, CNAME, TXT,
MX, NS. -/
theorem c7_domain_invalidation_amended :
    (∀ (st : TieredState) (name : ByteStr) (st' : TieredState),
        redisDeleteRecords st name none = some st' →
        ∀ t ∈ redisCommonTypes,
          assocGet (redisKey (NewLookupQuery name t)) st'.l1 = none ∧
          assocGet (redisKey (NewLookupQuery name t)) st'.l2 = none) ∧
    (∀ (st : CachedState) (name : ByteStr) (st' : CachedState),
        cachedDeleteRecords st name none = some st' →
        ∀ t ∈ cachedCommonTypes,
          assocGet (cacheKey (NewLookupQuery name t)) st'.cache = none) := by
  constructor
  · intro st name st' h t ht
    cases hd : pgDeleteRecords st.store name none with
    | none =>
      unfold redisDeleteRecords at h
      rw [hd] at h
      exact absurd h (by simp)
    | some s' =>
      unfold redisDeleteRecords at h
      rw [hd] at h
      have h2 := Option.some.inj h
      rw [← h2]
      unfold redisInvalidateDomain
      exact redisFold_mem_none name redisCommonTypes ⟨s', st.l1, st.l2⟩ t ht
  · intro st name st' h t ht
    cases hd : pgDeleteRecords st.store name none with
    | none =>
      unfold cachedDeleteRecords at h
      rw [hd] at h
      exact absurd h (by simp)
    | some s' =>
      unfold cachedDeleteRecords at h
      rw [hd] at h
      have h2 := Option.some.inj h
      rw [← h2]
      unfold cachedInvalidateDomain
      exact cachedFold_mem_none name cachedCommonTypes ⟨s', st.cache⟩ t ht

/-- Witness for C7 (amended): deleting every record of
`secure.test.internal` clears the A and CAA keys of that name at both
tiers. -/
theorem c7_domain_invalidation_amended_witness :
    (assocGet (redisKey (NewLookupQuery c7name .A)) c7after.l1 = none ∧
      assocGet (redisKey (NewLookupQuery c7name .A)) c7after.l2 = none) ∧
    (assocGet (redisKey (NewLookupQuery c7name .CAA)) c7after.l1 = none ∧
      assocGet (redisKey (NewLookupQuery c7name .CAA)) c7after.l2 = none) :=
  ⟨c7_domain_invalidation_amended.1 c7state c7name c7after (by decide) .A (by decide),
   c7_domain_invalidation_amended.1 c7state c7name c7after (by decide) .CAA (by decide)⟩

end ErrantDNS
